import Mathlib

/-!
Verification of the mcu-app block cache and config store against its
natural-language specification.

The block cache model is a shallow embedding of
`src/src/littlefs_block_cache.cpp` (namespace `app::filesystem_cache`):
machine `uint16_t` arrays become total maps `Nat → Nat` with the sentinel
`UINT16_MAX = 65535`, the cache byte buffer and the flash device become
maps from byte addresses to byte values, and the collaborating flash
driver (`__real_littlefs_api_read`) is modelled by the current device
contents plus an error oracle (one status per loop iteration, as the
source performs at most one underlying read per iteration).  A `none`
result models undefined behaviour (dereferencing the unallocated buffers).

The config model is a shallow embedding of `src/config.cpp`.  The external
CBOR library (qindesign/cbor) is modelled at the data-item level: a stream
is a list of tokens, and the parsing helpers used by the source
(`expectMap`, `expectText`, `expectInt`, `expectUnsignedInt`,
`expectValue(kTag, kSelfDescribeTag)`, `isWellFormed`) act on that list.
Indefinite-length items carry their flag (the source rejects them); a
`bad` token models a malformed encoded item.  The filesystem collaborator
is modelled by the two file slots (primary and backup) holding optional
token streams, with a write-outcome oracle for each `write_config` call.
-/

namespace McuApp

namespace FsCache

/-- Constant `FILESYSTEM_BLOCK_SIZE` for the `ARDUINO_LOLIN_S2_MINI` target. -/
def BS : Nat := 4096

/-- Constant `FILESYSTEM_BLOCKS = FILESYSTEM_SIZE / FILESYSTEM_BLOCK_SIZE` (2 MiB / 4 KiB). -/
def NB : Nat := 512

/-- Constant `FILESYSTEM_CACHE_BLOCKS = FILESYSTEM_CACHE_SIZE / FILESYSTEM_BLOCK_SIZE` (512 KiB / 4 KiB). -/
def CAP : Nat := 128

/-- The sentinel `UINT16_MAX` used for "unassigned" / "empty" index entries. -/
def E : Nat := 65535

/-- Point update of a total map (a single array store `f[k] = v`). -/
def upd (f : Nat → Nat) (k v : Nat) : Nat → Nat := fun x => if x = k then v else f x

/-- Overwrite the byte range `[lo, lo+len)` of `f` with the bytes of `g`
(a `memcpy`-style bulk store; `g` is indexed by absolute address). -/
def wrange (f : Nat → Nat) (lo len : Nat) (g : Nat → Nat) : Nat → Nat :=
  fun a => if lo ≤ a ∧ a < lo + len then g a else f a

/-- The mutable statics of `app::filesystem_cache`: `cache` (byte buffer),
`block_index`, `cache_index` and `used_cache_size`.  `alloc` records whether
the lazily allocated buffers exist (`cache != nullptr`); before allocation
the map fields are meaningless (the pointers are null). -/
structure S where
  alloc : Bool
  data : Nat → Nat
  bi : Nat → Nat
  ci : Nat → Nat
  used : Nat

/-- Process start: null pointers, `used_cache_size = 0`. -/
def initS : S := ⟨false, fun _ => 0, fun _ => 0, fun _ => 0, 0⟩

/-- Environment oracles consumed by one `read` call: whether
`heap_caps_malloc` succeeds, the (uninitialised) contents the freshly
allocated `cache` buffer and `cache_index` array happen to hold, the
`rand()` value per loop iteration, the status of the underlying
`__real_littlefs_api_read` per iteration, and the bytes such a failed read
leaves in the destination buffer. -/
structure RO where
  allocOk : Bool
  g0 : Nat → Nat
  g : Nat → Nat
  rnd : Nat → Nat
  err : Nat → Int
  junk : Nat → Nat → Nat

/-- Model of `init()`: lazily allocate.  Note the source bug kept faithfully here:
both `memset` calls target `block_index` (lines 70 and 73), so
`block_index` becomes all-`0xFF` while `cache_index` keeps its
uninitialised garbage `o.g`. -/
def initStep (o : RO) (s : S) : S :=
  if s.alloc then s
  else if o.allocOk then
    { alloc := true, data := o.g0, bi := fun _ => E, ci := o.g, used := s.used }
  else s

/-- The bytes at addresses `[a, a+n)` of a byte map. -/
def addrRead (dev : Nat → Nat) (a n : Nat) : List Nat :=
  (List.range n).map fun i => dev (a + i)

/-- Model of `__real_littlefs_api_read(c, block, off, buffer, size)` on success:
the device bytes of the range. -/
def realRead (dev : Nat → Nat) (block off n : Nat) : List Nat :=
  addrRead dev (block * BS + off) n

/-- Slot assignment for a missing block (lines 93–105).  At capacity a
pseudo-random slot is reclaimed (`pos = rand() % FILESYSTEM_CACHE_BLOCKS`,
clearing the forward entry of the slot's previous occupant first); below
capacity the next free slot `used_cache_size` is taken and the counter
incremented.  In both branches the source executes
`block_index[block] = pos;` and then `cache_index[block_index[block]] = block;`,
which (reading the just-written entry) stores `block` at `cache_index[pos]`;
the two stores appear here as one record update. -/
def claimSlot (o : RO) (i : Nat) (s : S) (block : Nat) : S × Nat :=
  if CAP ≤ s.used then
    let pos := o.rnd i % CAP
    let sa := if s.ci pos ≠ E then { s with bi := upd s.bi (s.ci pos) E } else s
    ({ sa with bi := upd sa.bi block pos, ci := upd sa.ci pos block }, pos)
  else
    ({ s with
       bi := upd s.bi block s.used
       ci := upd s.ci s.used block
       used := s.used + 1 }, s.used)

/-- The body of `if (block_index[block] == UINT16_MAX) { ... }` in `read`
(lines 92–116): claim a slot, then fetch the whole block from the device
into it.  Returns the new state and the fetch status. -/
def fillSlot (dev : Nat → Nat) (o : RO) (i : Nat) (s : S) (block : Nat) : S × Int :=
  let c := claimSlot o i s block
  if o.err i = 0 then
    ({ c.1 with data := wrange c.1.data (c.2 * BS) BS
                  (fun a => dev (block * BS + (a - c.2 * BS))) }, 0)
  else
    -- Failed fetch (lines 111–115): the destination slot keeps whatever the
    -- failed device read left there; `block_index[block] = UINT16_MAX;` and
    -- then `cache_index[block_index[block]] = block;` — the second store
    -- reads the freshly written sentinel, so it targets index `E` (an
    -- out-of-bounds store in the C code) and `cache_index[pos]` is left
    -- still naming `block`.
    ({ c.1 with
       data := wrange c.1.data (c.2 * BS) BS (o.junk i)
       bi := upd c.1.bi block E
       ci := upd c.1.ci E block }, o.err i)

/-- The `while (size > 0)` loop of `read` (lines 86–123), with an explicit
fuel (the loop advances at least one byte per iteration, so `size + 1` fuel
suffices).  `available = min(FILESYSTEM_BLOCK_SIZE - off, size)` is written
inline at its two use sites.  `none` models undefined behaviour: the
source dereferences the null `block_index` when allocation has failed, and
has no uncached fallback for in-range blocks.  A miss runs `fillSlot`; on
fetch success (and on a plain hit) `memcpy` delivers `available` bytes from
the slot `block_index[block]` at offset `off` and the loop continues at the
next block with offset 0. -/
def readLoop (dev : Nat → Nat) (o : RO) :
    Nat → S → Nat → Nat → Nat → Nat → List Nat → Option (S × Int × List Nat)
  | 0, _, _, _, _, _, _ => none
  | fuel + 1, s, i, block, off, size, acc =>
    if size = 0 then some (s, 0, acc)
    else if NB ≤ block then
      if o.err i = 0 then some (s, 0, acc ++ realRead dev block off size)
      else some (s, o.err i, acc)
    else if s.alloc = false then none
    else if s.bi block = E then
      if (fillSlot dev o i s block).2 = 0 then
        readLoop dev o fuel (fillSlot dev o i s block).1 (i + 1) (block + 1) 0
          (size - min (BS - off) size)
          (acc ++ ((List.range (min (BS - off) size)).map fun j =>
            (fillSlot dev o i s block).1.data
              ((fillSlot dev o i s block).1.bi block * BS + off + j)))
      else some ((fillSlot dev o i s block).1, (fillSlot dev o i s block).2, acc)
    else
      readLoop dev o fuel s (i + 1) (block + 1) 0 (size - min (BS - off) size)
        (acc ++ ((List.range (min (BS - off) size)).map fun j =>
          s.data (s.bi block * BS + off + j)))

/-- Model of `app::filesystem_cache::read` (lines 77–126): lazy `init()`, offset
normalisation (`while (off >= FILESYSTEM_BLOCK_SIZE)`), then the block
loop.  Result: final state, status, and the bytes delivered to `buffer`. -/
def fsRead (dev : Nat → Nat) (o : RO) (s0 : S) (block off size : Nat) :
    Option (S × Int × List Nat) :=
  readLoop dev o (size + 1) (initStep o s0) 0 (block + off / BS) (off % BS) size []

/-- The `while (size > 0)` loop of `evict` (lines 137–151). -/
def evictLoop : Nat → S → Nat → Nat → Nat → S
  | 0, s, _, _, _ => s
  | fuel + 1, s, block, off, size =>
    if size = 0 then s
    else
      let avail := min (BS - off) size
      if NB ≤ block then s
      else
        let s' :=
          if s.bi block ≠ E then
            { s with ci := upd s.ci (s.bi block) E, bi := upd s.bi block E }
          else s
        evictLoop fuel s' (block + 1) 0 (size - avail)

/-- Model of `app::filesystem_cache::evict` (lines 128–152): immediate return while
`used_cache_size == 0`, otherwise offset normalisation and invalidation of
every overlapping block. -/
def evict (s : S) (block off size : Nat) : S :=
  if s.used = 0 then s
  else evictLoop (size + 1) s (block + off / BS) (off % BS) size

/-- One block-level operation: a cached read (`__wrap_littlefs_api_read`),
a program (`__wrap_littlefs_api_prog`: evict, then the device range takes
the new bytes `d`), or an erase (`__wrap_littlefs_api_erase`: evict the
whole block, then its bytes become `d`). -/
inductive Op where
  | read (block off size : Nat) (o : RO)
  | prog (block off size : Nat) (d : Nat → Nat)
  | erase (block : Nat) (d : Nat → Nat)

/-- Execute one operation on (cache state, device contents). -/
def stepOp : S × (Nat → Nat) → Op → Option (S × (Nat → Nat))
  | (s, dev), .read block off size o =>
    (fsRead dev o s block off size).map fun p => (p.1, dev)
  | (s, dev), .prog block off size d =>
    some (evict s block off size, wrange dev (block * BS + off) size d)
  | (s, dev), .erase block d =>
    some (evict s block 0 BS, wrange dev (block * BS) BS d)

/-- Run a history of operations from process start on initial device
contents `dev0`. -/
def run (dev0 : Nat → Nat) (ops : List Op) : Option (S × (Nat → Nat)) :=
  ops.foldlM stepOp (initS, dev0)

/-! ### Invariants of the cache state -/

/-- Reverse-map consistency for committed blocks: every in-range block with
an assigned slot is named by that slot's `cache_index` entry. -/
def InvA (s : S) : Prop := ∀ b, b < NB → s.bi b ≠ E → s.ci (s.bi b) = b

/-- Assigned slots lie below the allocation counter. -/
def InvB (s : S) : Prop := ∀ b, b < NB → s.bi b ≠ E → s.bi b < s.used

/-- Data coherence: an assigned slot holds exactly the device bytes of its
block. -/
def InvD (s : S) (dev : Nat → Nat) : Prop :=
  ∀ b, b < NB → s.bi b ≠ E → ∀ j, j < BS → s.data (s.bi b * BS + j) = dev (b * BS + j)

/-- Reachable-state invariant: before allocation nothing was ever cached,
the counter never exceeds capacity, and once allocated the maps satisfy
`InvA`, `InvB` and `InvD`. -/
def Inv (s : S) (dev : Nat → Nat) : Prop :=
  (s.alloc = false → s.used = 0) ∧ s.used ≤ CAP ∧
    (s.alloc = true → InvA s ∧ InvB s ∧ InvD s dev)

/-- What `evict`'s loop leaves untouched: allocation flag, data, counter;
assigned forward entries only ever disappear; and reverse-map consistency
is preserved. -/
def EFrame (s t : S) : Prop :=
  t.alloc = s.alloc ∧ t.data = s.data ∧ t.used = s.used ∧
    (∀ b, t.bi b ≠ E → t.bi b = s.bi b ∧ s.bi b ≠ E) ∧ (InvA s → InvA t)

/-- Concrete device for witnesses: every byte reads as 7. -/
def devC : Nat → Nat := fun _ => 7

/-- Concrete oracles: allocation succeeds, device reads succeed. -/
def roC : RO :=
  { allocOk := true, g0 := fun _ => 0, g := fun _ => 0, rnd := fun _ => 0,
    err := fun _ => 0, junk := fun _ _ => 0 }

/-- Concrete oracles: allocation succeeds, every device read fails with
status 1. -/
def roE : RO :=
  { allocOk := true, g0 := fun _ => 0, g := fun _ => E, rnd := fun _ => 0,
    err := fun _ => 1, junk := fun _ _ => 0 }

/-- Concrete oracles: allocation fails. -/
def roF : RO :=
  { allocOk := false, g0 := fun _ => 0, g := fun _ => 0, rnd := fun _ => 0,
    err := fun _ => 0, junk := fun _ _ => 0 }

/-- The cache state after the witness read (used to exhibit a concrete
successful run of `fsRead`). -/
def fsResC : S := ((fsRead devC roC initS 0 0 1).getD (initS, 0, [])).1

end FsCache

namespace Cfg

/-- CBOR data items at the token level, modelling the qindesign/cbor
collaborator library used by `src/config.cpp`.  `map`/`text` carry the
indefinite-length flag the reader reports (the source rejects indefinite
items); `bad` models a malformed encoded item. -/
inductive Tok where
  | map (n : Nat) (indef : Bool)
  | text (s : String) (indef : Bool)
  | uint (n : Nat)
  | nint (n : Nat)
  | tag (n : Nat)
  | bad
deriving DecidableEq

/-- Value of `cbor::kSelfDescribeTag`. -/
def SELF_DESCRIBE_TAG : Nat := 55799

/-- Model of `cbor::expectMap(reader, &length, &indefinite)`. -/
def expectMap : List Tok → Option (Nat × Bool × List Tok)
  | Tok.map n i :: ts => some (n, i, ts)
  | _ => none

/-- Model of `cbor::expectText(reader, &length, &indefinite)` together with
`cbor::readFully` (the token already carries its bytes). -/
def expectText : List Tok → Option (String × Bool × List Tok)
  | Tok.text s i :: ts => some (s, i, ts)
  | _ => none

/-- Model of `cbor::expectInt(reader, &value)`: a 64-bit signed integer from an
unsigned or negative CBOR item. -/
def expectInt : List Tok → Option (Int × List Tok)
  | Tok.uint n :: ts => some ((n : Int), ts)
  | Tok.nint n :: ts => some (-1 - (n : Int), ts)
  | _ => none

/-- Model of `cbor::expectUnsignedInt(reader, &value)`. -/
def expectUnsigned : List Tok → Option (Nat × List Tok)
  | Tok.uint n :: ts => some (n, ts)
  | _ => none

/-- Model of `cbor::expectValue(reader, DataType::kTag, kSelfDescribeTag)`. -/
def expectSelfDescribe : List Tok → Option (List Tok)
  | Tok.tag n :: ts => if n = SELF_DESCRIBE_TAG then some ts else none
  | _ => none

/-- Model of the `reader.isWellFormed()` skipping machinery: consume `k` complete data
items, failing on a malformed item (a definite map of `n` pairs opens
`2*n` further items; a tag wraps one more item). -/
def skipToks : Nat → List Tok → Option (List Tok)
  | 0, ts => some ts
  | _ + 1, [] => none
  | k + 1, Tok.map n false :: ts => skipToks (2 * n + k) ts
  | _ + 1, Tok.map _ true :: _ => none
  | k + 1, Tok.text _ _ :: ts => skipToks k ts
  | k + 1, Tok.uint _ :: ts => skipToks k ts
  | k + 1, Tok.nint _ :: ts => skipToks k ts
  | k + 1, Tok.tag _ :: ts => skipToks (k + 1) ts
  | _ + 1, Tok.bad :: _ => none

/-- Model of `reader.isWellFormed()` for the next single data item. -/
def skipItem (ts : List Tok) : Option (List Tok) := skipToks 1 ts

/-- Narrowing `uint64_t` → `unsigned long` (32-bit on the ESP32 targets),
as in `read_map_value(cbor::Reader &, unsigned long &)`. -/
def toUInt32 (n : Nat) : Nat := n % 4294967296

/-- Narrowing `int64_t` → `long` (32-bit), as in
`read_map_value(cbor::Reader &, long &)`. -/
def toInt32 (v : Int) : Int := (v + 2147483648) % 4294967296 - 2147483648

/-- Narrowing `static_cast<uuid::log::Level>(long)`: the enum's underlying type is
`int8_t`. -/
def toInt8 (v : Int) : Int := (v + 128) % 256 - 128

/-- The statement after readFully builds a `std::string` from a NUL-terminated
buffer: the decoded text is truncated at the first NUL byte. -/
def cTrunc (s : String) : String :=
  String.mk (s.data.takeWhile (fun c => c ≠ Char.ofNat 0))

/-- Model of `read_map_value(cbor::Reader &, std::string &)`: definite text only. -/
def readText (ts : List Tok) : Option (String × List Tok) :=
  match expectText ts with
  | some (s, false, ts') => some (cTrunc s, ts')
  | _ => none

/-- Model of `read_map_value(cbor::Reader &, long &)`. -/
def readLong (ts : List Tok) : Option (Int × List Tok) :=
  match expectInt ts with
  | some (v, ts') => some (toInt32 v, ts')
  | none => none

/-- Model of `read_map_value(cbor::Reader &, unsigned long &)`. -/
def readULong (ts : List Tok) : Option (Nat × List Tok) :=
  match expectUnsigned ts with
  | some (v, ts') => some (toUInt32 v, ts')
  | none => none

/-- The declared field set of `Config` for the non-ESP8266 build of
`src/config.cpp` (`MCU_APP_INTERNAL_CONFIG_DATA` with empty
`MCU_APP_CONFIG_DATA`): five strings, the syslog level (enum ordinal) and
the syslog mark interval (`unsigned long`). -/
structure ConfigData where
  admin_password : String
  hostname : String
  wifi_ssid : String
  wifi_password : String
  syslog_host : String
  syslog_level : Int
  syslog_mark_interval : Nat
deriving DecidableEq

/-- Value of `uuid::log::Level::OFF`, the declared default ordinal of
`syslog_level` (the uuid-log collaborator defines `OFF = -1`). -/
def LEVEL_OFF : Int := -1

/-- Model of `Config::syslog_host(const std::string &)` (the one custom setter):
validate as a network address via the external `IPAddress::fromString`
collaborator (abstracted as the predicate `ip`) and silently clear the
field on failure. -/
def set_syslog_host (ip : String → Bool) (c : ConfigData) (v : String) : ConfigData :=
  if ip v then { c with syslog_host := v } else { c with syslog_host := "" }

/-- Model of `Config::read_config_defaults()`: apply every declared setter with its
compile-time default (all strings empty, `syslog_level` OFF,
`syslog_mark_interval` 0). -/
def read_config_defaults (ip : String → Bool) (c : ConfigData) : ConfigData :=
  set_syslog_host ip
    { c with admin_password := "", hostname := "", wifi_ssid := "",
             wifi_password := "", syslog_level := LEVEL_OFF,
             syslog_mark_interval := 0 } ""

/-- The record holding every field's compile-time default. -/
def defaultsRec : ConfigData :=
  { admin_password := "", hostname := "", wifi_ssid := "", wifi_password := "",
    syslog_host := "", syslog_level := LEVEL_OFF, syslog_mark_interval := 0 }

/-- The statically zero-initialised field values before any load. -/
def staticInit : ConfigData :=
  { admin_password := "", hostname := "", wifi_ssid := "", wifi_password := "",
    syslog_host := "", syslog_level := 0, syslog_mark_interval := 0 }

/-- The `while (length-- > 0)` loop of `Config::read_config(cbor::Reader &)`
(lines 141–171): read a text key, compare it against each declared field
name in turn, decode the value with that field's type and apply the
field's setter; for an unrecognised key accept it only if its value is
well-formed (`reader.isWellFormed()`).  Any failure aborts the whole
decode; setters already applied stay applied. -/
def readPairs (ip : String → Bool) : Nat → ConfigData → List Tok → Bool × ConfigData × List Tok
  | 0, c, ts => (true, c, ts)
  | len + 1, c, ts =>
    match readText ts with
    | none => (false, c, ts)
    | some (key, ts1) =>
      if key = "admin_password" then
        match readText ts1 with
        | some (v, ts2) => readPairs ip len { c with admin_password := v } ts2
        | none => (false, c, ts1)
      else if key = "hostname" then
        match readText ts1 with
        | some (v, ts2) => readPairs ip len { c with hostname := v } ts2
        | none => (false, c, ts1)
      else if key = "wifi_ssid" then
        match readText ts1 with
        | some (v, ts2) => readPairs ip len { c with wifi_ssid := v } ts2
        | none => (false, c, ts1)
      else if key = "wifi_password" then
        match readText ts1 with
        | some (v, ts2) => readPairs ip len { c with wifi_password := v } ts2
        | none => (false, c, ts1)
      else if key = "syslog_host" then
        match readText ts1 with
        | some (v, ts2) => readPairs ip len (set_syslog_host ip c v) ts2
        | none => (false, c, ts1)
      else if key = "syslog_level" then
        match readLong ts1 with
        | some (v, ts2) => readPairs ip len { c with syslog_level := toInt8 v } ts2
        | none => (false, c, ts1)
      else if key = "syslog_mark_interval" then
        match readULong ts1 with
        | some (v, ts2) => readPairs ip len { c with syslog_mark_interval := v } ts2
        | none => (false, c, ts1)
      else
        match skipItem ts1 with
        | some ts2 => readPairs ip len c ts2
        | none => (false, c, ts1)

/-- Model of `Config::read_config(cbor::Reader &)` (lines 134–178): a definite map
header, then the key/value loop.  Returns the success flag and the
(possibly partially mutated) fields. -/
def read_config_reader (ip : String → Bool) (c : ConfigData) (ts : List Tok) :
    Bool × ConfigData × List Tok :=
  match expectMap ts with
  | some (len, false, ts1) => readPairs ip len c ts1
  | some (_, true, _) => (false, c, ts)
  | none => (false, c, ts)

/-- Model of `writer.writeInt(value)`: unsigned CBOR item for non-negative values,
negative item otherwise. -/
def encInt (v : Int) : Tok :=
  if 0 ≤ v then Tok.uint v.toNat else Tok.nint (-1 - v).toNat

/-- The key/value items `Config::write_config(cbor::Writer &)` emits, one
pair per declared field in declaration order (every field always
written). -/
def fieldToks (c : ConfigData) : List Tok :=
  [Tok.text "admin_password" false, Tok.text c.admin_password false,
   Tok.text "hostname" false, Tok.text c.hostname false,
   Tok.text "wifi_ssid" false, Tok.text c.wifi_ssid false,
   Tok.text "wifi_password" false, Tok.text c.wifi_password false,
   Tok.text "syslog_host" false, Tok.text c.syslog_host false,
   Tok.text "syslog_level" false, encInt c.syslog_level,
   Tok.text "syslog_mark_interval" false, encInt (c.syslog_mark_interval : Int)]

/-- Model of `Config::write_config(cbor::Writer &)` (lines 197–215):
`writer.beginMap(config_num_keys)` followed by the field pairs. -/
def write_config_writer (c : ConfigData) : List Tok :=
  Tok.map 7 false :: fieldToks c

/-- Content written by `Config::write_config(filename)`: the self-describe tag followed
by the encoded map (lines 373–374). -/
def write_config_file_content (c : ConfigData) : List Tok :=
  Tok.tag SELF_DESCRIBE_TAG :: write_config_writer c

/-- The two config files `/config.cbor` (primary) and `/config.cbor~`
(backup); `none` means the file does not exist. -/
structure Files where
  primary : Option (List Tok)
  backup : Option (List Tok)
deriving DecidableEq

/-- The process-wide `Config` statics (`mounted_`, `unavailable_`,
`loaded_`, the field statics) together with the filesystem contents. -/
structure Sys where
  mounted : Bool
  unavailable : Bool
  loaded : Bool
  data : ConfigData
  files : Files
deriving DecidableEq

/-- Model of `Config::read_config(filename, load=false)` (lines 338–364): the file
exists, starts with the self-describe tag, and its next item is
well-formed. -/
def verify_file : Option (List Tok) → Bool
  | none => false
  | some ts =>
    match expectSelfDescribe ts with
    | none => false
    | some ts1 => (skipItem ts1).isSome

/-- Model of `Config::read_config(filename, load=true)`: verify the tag and
well-formedness, then seek back and parse the map through the setters.
Setters applied before a mid-map failure stay applied. -/
def load_file (ip : String → Bool) (c : ConfigData) :
    Option (List Tok) → Bool × ConfigData
  | none => (false, c)
  | some ts =>
    match expectSelfDescribe ts with
    | none => (false, c)
    | some ts1 =>
      if (skipItem ts1).isSome then
        ((read_config_reader ip c ts1).1, (read_config_reader ip c ts1).2.1)
      else (false, c)

/-- The mount block shared by the constructor and `commit()` (`if
(!unavailable_ && !mounted_) { FS_begin(true) ... }`); `mountOk` is the
outcome of the `FS_begin` collaborator call. -/
def mountStep (mountOk : Bool) (s : Sys) : Sys :=
  if ¬ s.unavailable ∧ ¬ s.mounted then
    (if mountOk then { s with mounted := true } else { s with unavailable := true })
  else s

/-- Lines 275–280 of the constructor: when mounted and not yet loaded,
read the primary file, falling back to the backup file; mark loaded on
success. -/
def loadStep (ip : String → Bool) (s : Sys) : Sys :=
  if s.mounted ∧ ¬ s.loaded then
    (if (load_file ip s.data s.files.primary).1 then
      { s with data := (load_file ip s.data s.files.primary).2, loaded := true }
    else if (load_file ip (load_file ip s.data s.files.primary).2 s.files.backup).1 then
      { s with data := (load_file ip (load_file ip s.data s.files.primary).2 s.files.backup).2,
               loaded := true }
    else
      { s with data := (load_file ip (load_file ip s.data s.files.primary).2 s.files.backup).2 })
  else s

/-- Lines 282–290 of the constructor: when still unloaded, populate the
compile-time defaults (only when constructed with `mount = true`). -/
def defaultsStep (mount : Bool) (ip : String → Bool) (s : Sys) : Sys :=
  if ¬ s.loaded then
    (if mount then
      { s with data := read_config_defaults ip s.data, loaded := true }
    else s)
  else s

/-- Model of `Config::Config(bool mount)` (lines 263–291). -/
def construct (mount mountOk : Bool) (ip : String → Bool) (s : Sys) : Sys :=
  defaultsStep mount ip (loadStep ip (if mount then mountStep mountOk s else s))

/-- Outcome of one `Config::write_config(filename)` call, as decided by
the filesystem collaborator: the open may fail (file untouched), the write
may fail leaving partial junk (reported), the medium may corrupt the
content silently (unreported — the spec's "write success, read-back
failure" scenario), or everything succeeds. -/
inductive WOut where
  | openFail
  | writeFail (junk : List Tok)
  | corrupt (junk : List Tok)
  | ok

/-- Model of `Config::write_config(filename)` (lines 366–386): returns the success
flag and the file's new content. -/
def writeFileStep (c : ConfigData) : WOut → Option (List Tok) → Bool × Option (List Tok)
  | WOut.openFail, old => (false, old)
  | WOut.writeFail j, _ => (false, some j)
  | WOut.corrupt j, _ => (true, some j)
  | WOut.ok, _ => (true, some (write_config_file_content c))

/-- Model of `Config::commit()` (lines 305–327): mount if needed; write the primary
file; read it back with `read_config(filename, false)`; only if that
verification succeeds, write the backup file. -/
def commit (mountOk : Bool) (w1 w2 : WOut) (s : Sys) : Sys :=
  if (mountStep mountOk s).mounted then
    (if (writeFileStep (mountStep mountOk s).data w1 (mountStep mountOk s).files.primary).1 then
      (if verify_file (writeFileStep (mountStep mountOk s).data w1
            (mountStep mountOk s).files.primary).2 then
        { mountStep mountOk s with files :=
          { primary := (writeFileStep (mountStep mountOk s).data w1
              (mountStep mountOk s).files.primary).2,
            backup := (writeFileStep (mountStep mountOk s).data w2
              (mountStep mountOk s).files.backup).2 } }
      else
        { mountStep mountOk s with files :=
          { primary := (writeFileStep (mountStep mountOk s).data w1
              (mountStep mountOk s).files.primary).2,
            backup := (mountStep mountOk s).files.backup } })
    else
      { mountStep mountOk s with files :=
        { primary := (writeFileStep (mountStep mountOk s).data w1
            (mountStep mountOk s).files.primary).2,
          backup := (mountStep mountOk s).files.backup } })
  else mountStep mountOk s

/-- Canonical field values: strings without NUL bytes, a validated-or-empty
syslog host, an `int8_t`-ranged level and a 32-bit mark interval — exactly
the values representable by the in-memory state after setter application. -/
def canonical (ip : String → Bool) (g : ConfigData) : Prop :=
  cTrunc g.admin_password = g.admin_password ∧
  cTrunc g.hostname = g.hostname ∧
  cTrunc g.wifi_ssid = g.wifi_ssid ∧
  cTrunc g.wifi_password = g.wifi_password ∧
  cTrunc g.syslog_host = g.syslog_host ∧
  (ip g.syslog_host = true ∨ g.syslog_host = "") ∧
  (-128 ≤ g.syslog_level ∧ g.syslog_level < 128) ∧
  g.syslog_mark_interval < 4294967296

instance (ip : String → Bool) (g : ConfigData) : Decidable (canonical ip g) := by
  unfold canonical
  infer_instance

/-- A concrete address-validation predicate for witnesses (no string is a
valid address). -/
def ip0 : String → Bool := fun _ => false

/-- Concrete non-default canonical field values for witnesses. -/
def gC : ConfigData :=
  { admin_password := "", hostname := "device1", wifi_ssid := "", wifi_password := "",
    syslog_host := "", syslog_level := LEVEL_OFF, syslog_mark_interval := 0 }

/-- A mounted-but-unloaded process state whose primary config file is a
valid snapshot of `gC` (reachable by calling `commit()` before any
loading constructor). -/
def sC7 : Sys :=
  { mounted := true, unavailable := false, loaded := false, data := staticInit,
    files := { primary := some (write_config_file_content gC), backup := none } }

/-- A mounted-but-unloaded state with a missing primary file and a valid
backup snapshot of `gC`. -/
def sC4 : Sys :=
  { mounted := true, unavailable := false, loaded := false, data := staticInit,
    files := { primary := none, backup := some (write_config_file_content gC) } }

/-- A mounted, loaded state with no files yet (for the commit witness). -/
def sC3 : Sys :=
  { mounted := true, unavailable := false, loaded := true, data := gC,
    files := { primary := none, backup := none } }

end Cfg

namespace FsCache

theorem upd_self (f : Nat → Nat) (k v : Nat) : upd f k v k = v := by
  simp [upd]

theorem upd_other (f : Nat → Nat) (k v x : Nat) (h : x ≠ k) : upd f k v x = f x := by
  simp [upd, h]

theorem wrange_inside (f g : Nat → Nat) (lo len a : Nat) (h1 : lo ≤ a) (h2 : a < lo + len) :
    wrange f lo len g a = g a := by
  simp [wrange, h1, h2]

theorem wrange_outside (f g : Nat → Nat) (lo len a : Nat) (h : ¬ (lo ≤ a ∧ a < lo + len)) :
    wrange f lo len g a = f a := by
  simp only [wrange, if_neg h]

/-- Distinct cache slots occupy disjoint byte ranges of the cache buffer. -/
theorem slot_disjoint (p q j : Nat) (hpq : p ≠ q) (hj : j < BS) :
    ¬ (q * BS ≤ p * BS + j ∧ p * BS + j < q * BS + BS) := by
  simp only [BS] at *
  omega

theorem initStep_inv (o : RO) (s : S) (dev : Nat → Nat) (h : Inv s dev) :
    Inv (initStep o s) dev := by
  obtain ⟨h0, h1, h2⟩ := h
  by_cases ha : s.alloc = true
  · simpa [initStep, ha] using ⟨h0, h1, h2⟩
  · have ha' : s.alloc = false := by simpa using ha
    by_cases hk : o.allocOk = true
    · refine ⟨by simp [initStep, ha', hk], by simpa [initStep, ha', hk] using h1, ?_⟩
      intro _
      refine ⟨?_, ?_, ?_⟩ <;> intro b hb hbe <;> simp [initStep, ha', hk] at hbe
    · simpa [initStep, ha', hk] using ⟨h0, h1, h2⟩

theorem CAP_pos : 0 < CAP := by decide

theorem BS_pos : 0 < BS := by decide

theorem NB_lt_E : NB < E := by decide

theorem CAP_lt_E : CAP < E := by decide

/-- Behaviour of `claimSlot` on a miss from an invariant state: the chosen
slot is in range and below the (possibly incremented) counter, the block
and the slot now name each other, the data and every other `cache_index`
entry are untouched, and every other still-assigned block kept its old
slot, which differs from the chosen one. -/
theorem claimSlot_spec (o : RO) (i : Nat) (s : S) (block : Nat) (dev : Nat → Nat)
    (hb : block < NB) (hmiss : s.bi block = E) (hInv : Inv s dev)
    (halloc : s.alloc = true) :
    (claimSlot o i s block).1.alloc = s.alloc ∧
    (claimSlot o i s block).1.data = s.data ∧
    (claimSlot o i s block).2 < CAP ∧
    (claimSlot o i s block).2 < (claimSlot o i s block).1.used ∧
    (claimSlot o i s block).1.used ≤ CAP ∧
    s.used ≤ (claimSlot o i s block).1.used ∧
    (claimSlot o i s block).1.bi block = (claimSlot o i s block).2 ∧
    (claimSlot o i s block).1.ci (claimSlot o i s block).2 = block ∧
    (∀ x, x ≠ (claimSlot o i s block).2 → (claimSlot o i s block).1.ci x = s.ci x) ∧
    (∀ b', b' < NB → b' ≠ block → (claimSlot o i s block).1.bi b' ≠ E →
      (claimSlot o i s block).1.bi b' = s.bi b' ∧ s.bi b' ≠ E ∧
        s.bi b' ≠ (claimSlot o i s block).2) := by
  obtain ⟨-, hcaple, hABD⟩ := hInv
  obtain ⟨hA, hB, -⟩ := hABD halloc
  have hNBE := NB_lt_E
  by_cases hcap : CAP ≤ s.used
  · have hused : s.used = CAP := Nat.le_antisymm hcaple hcap
    have hpos : o.rnd i % CAP < CAP := Nat.mod_lt _ CAP_pos
    simp only [claimSlot, if_pos hcap]
    by_cases hcip : s.ci (o.rnd i % CAP) ≠ E
    · simp only [if_pos hcip]
      refine ⟨trivial, trivial, hpos, by omega, by omega, by omega,
        upd_self _ _ _, upd_self _ _ _, fun x hx => upd_other _ _ _ _ hx, ?_⟩
      intro b' hb' hbne hbe
      rw [upd_other _ _ _ _ hbne] at hbe ⊢
      by_cases hocc : b' = s.ci (o.rnd i % CAP)
      · rw [hocc, upd_self] at hbe; exact absurd rfl hbe
      · rw [upd_other _ _ _ _ hocc] at hbe ⊢
        refine ⟨rfl, hbe, fun hsb => ?_⟩
        exact hocc ((hA b' hb' hbe).symm.trans (by rw [hsb]))
    · simp only [if_neg hcip]
      refine ⟨trivial, trivial, hpos, by omega, by omega, by omega,
        upd_self _ _ _, upd_self _ _ _, fun x hx => upd_other _ _ _ _ hx, ?_⟩
      intro b' hb' hbne hbe
      rw [upd_other _ _ _ _ hbne] at hbe ⊢
      refine ⟨rfl, hbe, fun hsb => ?_⟩
      have hcb := hA b' hb' hbe
      rw [hsb] at hcb
      rw [hcb] at hcip
      exact hcip (by omega)
  · push_neg at hcap
    simp only [claimSlot, if_neg (by omega : ¬ CAP ≤ s.used)]
    refine ⟨trivial, trivial, hcap, by omega, by omega, by omega,
      upd_self _ _ _, upd_self _ _ _, fun x hx => upd_other _ _ _ _ hx, ?_⟩
    intro b' hb' hbne hbe
    rw [upd_other _ _ _ _ hbne] at hbe ⊢
    exact ⟨rfl, hbe, by have := hB b' hb' hbe; omega⟩

/-- Lemma: `fillSlot` preserves the invariant, keeps the buffers allocated, and on
a successful fetch leaves the block committed to a slot. -/
theorem fillSlot_spec (dev : Nat → Nat) (o : RO) (i : Nat) (s : S) (block : Nat)
    (hb : block < NB) (hmiss : s.bi block = E) (hInv : Inv s dev)
    (halloc : s.alloc = true) :
    Inv (fillSlot dev o i s block).1 dev ∧
    (fillSlot dev o i s block).1.alloc = true ∧
    ((fillSlot dev o i s block).2 = 0 → (fillSlot dev o i s block).1.bi block ≠ E) := by
  obtain ⟨hc_alloc, hc_data, hc_pos, hc_posu, hc_cap, hc_mono, hc_bib, hc_cip,
    hc_cifr, hc_bifr⟩ := claimSlot_spec o i s block dev hb hmiss hInv halloc
  obtain ⟨-, -, hABD⟩ := hInv
  obtain ⟨hA, hB, hD⟩ := hABD halloc
  set c := claimSlot o i s block with hc
  by_cases herr : o.err i = 0
  · simp only [fillSlot, ← hc, if_pos herr]
    have hCE := CAP_lt_E
    have hbiE : c.1.bi block ≠ E := by rw [hc_bib]; omega
    refine ⟨⟨by simp [hc_alloc, halloc], by simpa using hc_cap, fun _ => ⟨?_, ?_, ?_⟩⟩,
      by simpa using (hc_alloc.trans halloc), fun _ => by simpa using hbiE⟩
    · -- InvA
      intro b' hb' hbe
      simp only at hbe ⊢
      by_cases hbb : b' = block
      · subst hbb; rw [hc_bib, hc_cip]
      · obtain ⟨he, hsE, hsne⟩ := hc_bifr b' hb' hbb hbe
        rw [he, hc_cifr _ hsne, hA b' hb' hsE]
    · -- InvB
      intro b' hb' hbe
      simp only at hbe ⊢
      by_cases hbb : b' = block
      · subst hbb; rw [hc_bib]; exact hc_posu
      · obtain ⟨he, hsE, -⟩ := hc_bifr b' hb' hbb hbe
        rw [he]; exact lt_of_lt_of_le (hB b' hb' hsE) hc_mono
    · -- InvD
      intro b' hb' hbe j hj
      simp only at hbe ⊢
      by_cases hbb : b' = block
      · subst hbb
        rw [hc_bib, wrange_inside _ _ _ _ _ (Nat.le_add_right _ _) (by omega)]
        congr 1
        omega
      · obtain ⟨he, hsE, hsne⟩ := hc_bifr b' hb' hbb hbe
        have hdis := slot_disjoint (s.bi b') c.2 j hsne hj
        rw [he, wrange_outside _ _ _ _ _ hdis, hc_data]
        exact hD b' hb' hsE j hj
  · simp only [fillSlot, ← hc, if_neg herr]
    refine ⟨⟨by simp [hc_alloc, halloc], by simpa using hc_cap, fun _ => ⟨?_, ?_, ?_⟩⟩,
      by simpa using (hc_alloc.trans halloc), fun h0 => absurd h0 (by simpa using herr)⟩
    · -- InvA
      intro b' hb' hbe
      simp only at hbe ⊢
      by_cases hbb : b' = block
      · subst hbb; rw [upd_self] at hbe; exact absurd rfl hbe
      · rw [upd_other _ _ _ _ hbb] at hbe ⊢
        obtain ⟨he, hsE, hsne⟩ := hc_bifr b' hb' hbb hbe
        rw [he, upd_other _ _ _ _ hsE, hc_cifr _ hsne, hA b' hb' hsE]
    · -- InvB
      intro b' hb' hbe
      simp only at hbe ⊢
      by_cases hbb : b' = block
      · subst hbb; rw [upd_self] at hbe; exact absurd rfl hbe
      · rw [upd_other _ _ _ _ hbb] at hbe ⊢
        obtain ⟨he, hsE, -⟩ := hc_bifr b' hb' hbb hbe
        rw [he]; exact lt_of_lt_of_le (hB b' hb' hsE) hc_mono
    · -- InvD
      intro b' hb' hbe j hj
      simp only at hbe ⊢
      by_cases hbb : b' = block
      · subst hbb; rw [upd_self] at hbe; exact absurd rfl hbe
      · rw [upd_other _ _ _ _ hbb] at hbe ⊢
        obtain ⟨he, hsE, hsne⟩ := hc_bifr b' hb' hbb hbe
        have hdis := slot_disjoint (s.bi b') c.2 j hsne hj
        rw [he, wrange_outside _ _ _ _ _ hdis, hc_data]
        exact hD b' hb' hsE j hj

theorem addrRead_append (dev : Nat → Nat) (a k m : Nat) :
    addrRead dev a (k + m) = addrRead dev a k ++ addrRead dev (a + k) m := by
  unfold addrRead
  rw [List.range_add, List.map_append, List.map_map]
  congr 1
  refine List.map_congr_left fun i _ => ?_
  simp [Function.comp, Nat.add_assoc]

/-- One loop iteration's `memcpy` appends exactly the device bytes of
`[block*BS+off, block*BS+off+available)`, and gluing the recursive call's
bytes (which start at the next block boundary) yields the device bytes of
the whole remaining range. -/
theorem bytes_step (dev : Nat → Nat) (t : S) (block off size : Nat) (acc : List Nat)
    (hoff : off < BS) (hsz : size ≠ 0) (hblt : block < NB) (hbi : t.bi block ≠ E)
    (hInv : Inv t dev) (halloc : t.alloc = true) :
    (acc ++ ((List.range (min (BS - off) size)).map fun j =>
        t.data (t.bi block * BS + off + j)))
      ++ addrRead dev ((block + 1) * BS + 0) (size - min (BS - off) size)
    = acc ++ addrRead dev (block * BS + off) size := by
  obtain ⟨-, -, hABD⟩ := hInv
  obtain ⟨-, -, hD⟩ := hABD halloc
  have hbytes : ((List.range (min (BS - off) size)).map fun j =>
      t.data (t.bi block * BS + off + j))
      = addrRead dev (block * BS + off) (min (BS - off) size) := by
    unfold addrRead
    refine List.map_congr_left fun j hj => ?_
    rw [List.mem_range] at hj
    have hjo : off + j < BS := by omega
    have hdd := hD block hblt hbi (off + j) hjo
    calc t.data (t.bi block * BS + off + j)
        = t.data (t.bi block * BS + (off + j)) := by rw [Nat.add_assoc]
      _ = dev (block * BS + (off + j)) := hdd
      _ = dev (block * BS + off + j) := by rw [Nat.add_assoc]
  rw [hbytes, List.append_assoc]
  congr 1
  by_cases hcase : BS - off ≤ size
  · have hav : min (BS - off) size = BS - off := Nat.min_eq_left hcase
    have haddr : (block + 1) * BS + 0 = block * BS + off + (BS - off) := by
      rw [Nat.succ_mul, Nat.add_zero]
      omega
    rw [hav, haddr, ← addrRead_append]
    congr 1
    omega
  · have hav : min (BS - off) size = size := Nat.min_eq_right (by omega)
    rw [hav]
    simp [addrRead]

/-- Loop correctness: from an invariant state with a normalised offset, a
terminating run of the read loop preserves the invariant and, when it
reports success, has appended exactly the device bytes of the requested
range to the accumulator. -/
theorem readLoop_spec (dev : Nat → Nat) (o : RO) :
    ∀ fuel s i block off size acc s' r out,
      Inv s dev → off < BS →
      readLoop dev o fuel s i block off size acc = some (s', r, out) →
      Inv s' dev ∧ (r = 0 → out = acc ++ addrRead dev (block * BS + off) size) := by
  intro fuel
  induction fuel with
  | zero =>
    intro s i block off size acc s' r out _ _ h
    simp [readLoop] at h
  | succ fuel ih =>
    intro s i block off size acc s' r out hInv hoff h
    rw [readLoop] at h
    by_cases hsz : size = 0
    · subst hsz
      rw [if_pos rfl, Option.some_inj, Prod.mk.injEq, Prod.mk.injEq] at h
      obtain ⟨hs, -, ho⟩ := h
      refine ⟨hs ▸ hInv, fun _ => ?_⟩
      rw [← ho]
      simp [addrRead]
    · rw [if_neg hsz] at h
      by_cases hnb : NB ≤ block
      · rw [if_pos hnb] at h
        by_cases herr : o.err i = 0
        · rw [if_pos herr, Option.some_inj, Prod.mk.injEq, Prod.mk.injEq] at h
          obtain ⟨hs, -, ho⟩ := h
          refine ⟨hs ▸ hInv, fun _ => ?_⟩
          rw [← ho]
          rfl
        · rw [if_neg herr, Option.some_inj, Prod.mk.injEq, Prod.mk.injEq] at h
          obtain ⟨hs, hre, -⟩ := h
          refine ⟨hs ▸ hInv, fun hr0 => ?_⟩
          rw [← hre] at hr0
          exact absurd hr0 herr
      · rw [if_neg hnb] at h
        by_cases halloc : s.alloc = false
        · rw [if_pos halloc] at h
          exact absurd h (by simp)
        · rw [if_neg halloc] at h
          have halloc' : s.alloc = true := by
            cases hval : s.alloc
            · exact absurd hval halloc
            · rfl
          have hblt : block < NB := by omega
          -- both continuation branches share this step
          by_cases hmiss : s.bi block = E
          · rw [if_pos hmiss] at h
            obtain ⟨hfInv, hfalloc, hfbi⟩ :=
              fillSlot_spec dev o i s block hblt hmiss hInv halloc'
            by_cases hret : (fillSlot dev o i s block).2 = 0
            · rw [if_pos hret] at h
              obtain ⟨hInv', hout⟩ := ih _ _ _ _ _ _ _ _ _ hfInv (by
                have := BS_pos; omega) h
              refine ⟨hInv', fun hr0 => ?_⟩
              rw [hout hr0]
              exact bytes_step dev (fillSlot dev o i s block).1 block off size acc
                hoff hsz hblt (hfbi hret) hfInv hfalloc
            · rw [if_neg hret, Option.some_inj, Prod.mk.injEq, Prod.mk.injEq] at h
              obtain ⟨hs, hre, -⟩ := h
              refine ⟨hs ▸ hfInv, fun hr0 => ?_⟩
              rw [← hre] at hr0
              exact absurd hr0 hret
          · rw [if_neg hmiss] at h
            obtain ⟨hInv', hout⟩ := ih _ _ _ _ _ _ _ _ _ hInv (by
              have := BS_pos; omega) h
            refine ⟨hInv', fun hr0 => ?_⟩
            rw [hout hr0]
            exact bytes_step dev s block off size acc hoff hsz hblt hmiss hInv halloc'

/-- Correctness of `read`: from an invariant state, a terminating call keeps
the invariant and a successful call returns exactly the device bytes. -/
theorem fsRead_spec (dev : Nat → Nat) (o : RO) (s0 : S) (block off size : Nat)
    (s' : S) (r : Int) (out : List Nat) (hInv : Inv s0 dev)
    (h : fsRead dev o s0 block off size = some (s', r, out)) :
    Inv s' dev ∧ (r = 0 → out = realRead dev block off size) := by
  unfold fsRead at h
  have hInv1 := initStep_inv o s0 dev hInv
  obtain ⟨h1, h2⟩ := readLoop_spec dev o _ _ _ _ _ _ _ _ _ _ hInv1
    (Nat.mod_lt _ BS_pos) h
  refine ⟨h1, fun hr => ?_⟩
  have haddr : (block + off / BS) * BS + off % BS = block * BS + off := by
    simp only [BS]
    omega
  rw [h2 hr, List.nil_append, realRead, haddr]

theorem EFrame_rfl (s : S) : EFrame s s :=
  ⟨rfl, rfl, rfl, fun _ hbe => ⟨rfl, hbe⟩, id⟩

theorem EFrame_trans (s t u : S) (h1 : EFrame s t) (h2 : EFrame t u) : EFrame s u := by
  obtain ⟨a1, d1, u1, f1, i1⟩ := h1
  obtain ⟨a2, d2, u2, f2, i2⟩ := h2
  refine ⟨a2.trans a1, d2.trans d1, u2.trans u1, fun b hbe => ?_, fun hA => i2 (i1 hA)⟩
  obtain ⟨e2, n2⟩ := f2 b hbe
  obtain ⟨e1, n1⟩ := f1 b n2
  exact ⟨e2.trans e1, n1⟩

/-- Clearing one in-range block's entries preserves the frame. -/
theorem clear_frame (s : S) (block : Nat) (hblt : block < NB) :
    EFrame s (if s.bi block ≠ E then
      { s with ci := upd s.ci (s.bi block) E, bi := upd s.bi block E } else s) := by
  by_cases hbi : s.bi block ≠ E
  · rw [if_pos hbi]
    refine ⟨rfl, rfl, rfl, fun b hbe => ?_, fun hA => ?_⟩
    · simp only at hbe ⊢
      by_cases hbb : b = block
      · subst hbb; rw [upd_self] at hbe; exact absurd rfl hbe
      · rw [upd_other _ _ _ _ hbb] at hbe ⊢; exact ⟨rfl, hbe⟩
    · intro b' hb' hbe
      simp only at hbe ⊢
      by_cases hbb : b' = block
      · subst hbb; rw [upd_self] at hbe; exact absurd rfl hbe
      · rw [upd_other _ _ _ _ hbb] at hbe ⊢
        have hne : s.bi b' ≠ s.bi block := fun he => by
          have h1 := hA b' hb' hbe
          have h2 := hA block hblt hbi
          rw [he, h2] at h1
          exact hbb h1.symm
        rw [upd_other _ _ _ _ hne]
        exact hA b' hb' hbe
  · rw [if_neg hbi]; exact EFrame_rfl s

theorem evictLoop_frame : ∀ fuel s block off size, EFrame s (evictLoop fuel s block off size) := by
  intro fuel
  induction fuel with
  | zero => intro s block off size; rw [evictLoop]; exact EFrame_rfl s
  | succ fuel ih =>
    intro s block off size
    rw [evictLoop]
    by_cases hsz : size = 0
    · rw [if_pos hsz]; exact EFrame_rfl s
    · rw [if_neg hsz]
      by_cases hnb : NB ≤ block
      · rw [if_pos hnb]; exact EFrame_rfl s
      · rw [if_neg hnb]
        exact EFrame_trans _ _ _ (clear_frame s block (by omega)) (ih _ _ _ _)

theorem evictLoop_zero (fuel : Nat) (s : S) (block off : Nat) :
    evictLoop fuel s block off 0 = s := by
  cases fuel <;> simp [evictLoop]

/-- Every in-range block overlapping the (nonempty) evicted byte range has
its forward entry cleared by the loop. -/
theorem evictLoop_clears : ∀ fuel s block off size c,
    off < BS → size ≤ fuel → size ≠ 0 → c < NB → block ≤ c →
    c * BS < block * BS + off + size →
    (evictLoop fuel s block off size).bi c = E := by
  intro fuel
  induction fuel with
  | zero =>
    intro s block off size c hoff hfuel hsz hc hbc hlt
    exact absurd (by omega : size = 0) hsz
  | succ fuel ih =>
    intro s block off size c hoff hfuel hsz hc hbc hlt
    rw [evictLoop, if_neg hsz]
    have hnb : ¬ NB ≤ block := by omega
    rw [if_neg hnb]
    set s1 := if s.bi block ≠ E then
      { s with ci := upd s.ci (s.bi block) E, bi := upd s.bi block E } else s with hs1
    have hs1c : s1.bi block = E := by
      by_cases hbi : s.bi block ≠ E
      · rw [hs1, if_pos hbi]; exact upd_self _ _ _
      · rw [hs1, if_neg hbi]; exact not_not.mp hbi
    by_cases hcb : c = block
    · subst hcb
      -- the entry is cleared now and the rest of the loop never revives it
      have hfr := evictLoop_frame fuel s1 (c + 1) 0 (size - min (BS - off) size)
      obtain ⟨-, -, -, hbiF, -⟩ := hfr
      by_cases hE : (evictLoop fuel s1 (c + 1) 0 (size - min (BS - off) size)).bi c = E
      · exact hE
      · exact absurd ((hbiF c hE).1.trans hs1c) hE
    · have hbc' : block + 1 ≤ c := by omega
      by_cases hrest : size - min (BS - off) size = 0
      · exfalso
        -- the remaining size is zero only if the range ends inside this
        -- block, but then no later block can overlap it
        have hmin : min (BS - off) size = size := by omega
        have hmul : (block + 1) * BS ≤ c * BS := Nat.mul_le_mul_right _ hbc'
        rw [Nat.succ_mul] at hmul
        omega
      · refine ih s1 (block + 1) 0 (size - min (BS - off) size) c BS_pos (by omega)
          hrest hc hbc' ?_
        have hmin : min (BS - off) size = BS - off := by omega
        rw [Nat.succ_mul]
        omega

/-- Invalidate-before-write: evicting the byte range and then changing
exactly those device bytes preserves the cache invariant. -/
theorem evict_write_inv (s : S) (dev : Nat → Nat) (block off size : Nat) (d : Nat → Nat)
    (hInv : Inv s dev) :
    Inv (evict s block off size) (wrange dev (block * BS + off) size d) := by
  obtain ⟨h0, h1, hABD⟩ := hInv
  by_cases hused : s.used = 0
  · rw [evict, if_pos hused]
    refine ⟨h0, h1, fun halloc => ?_⟩
    obtain ⟨hA, hB, hD⟩ := hABD halloc
    refine ⟨hA, hB, fun b hb hbe j hj => ?_⟩
    exact absurd (hB b hb hbe) (by omega)
  · rw [evict, if_neg hused]
    have hfr := evictLoop_frame (size + 1) s (block + off / BS) (off % BS) size
    obtain ⟨ha, hd, hu, hbiF, hiA⟩ := hfr
    set t := evictLoop (size + 1) s (block + off / BS) (off % BS) size with ht
    refine ⟨fun hf => by rw [hu]; exact h0 (by rw [← ha]; exact hf), by omega,
      fun halloc => ?_⟩
    obtain ⟨hA, hB, hD⟩ := hABD (ha.symm.trans halloc)
    refine ⟨hiA hA, ?_, ?_⟩
    · intro b hb hbe
      obtain ⟨he, hne⟩ := hbiF b hbe
      rw [he, hu]
      exact hB b hb hne
    · intro b hb hbe j hj
      obtain ⟨he, hne⟩ := hbiF b hbe
      rw [he, hd]
      have hold := hD b hb hne j hj
      rw [hold]
      -- the device byte is outside the written range, else the block would
      -- have been evicted
      refine (wrange_outside _ _ _ _ _ fun hin => ?_).symm
      obtain ⟨hlo, hhi⟩ := hin
      have hcover : t.bi b = E := by
        refine evictLoop_clears (size + 1) s (block + off / BS) (off % BS) size b
          (Nat.mod_lt _ BS_pos) (by omega) (by omega) hb ?_ ?_
        · -- b lies at or after the first (normalised) evicted block
          by_contra hcon
          push_neg at hcon
          have hble : b + 1 ≤ block + off / BS := hcon
          have hmul : (b + 1) * BS ≤ (block + off / BS) * BS := Nat.mul_le_mul_right _ hble
          have haddr : (block + off / BS) * BS + off % BS = block * BS + off := by
            simp only [BS]; omega
          rw [Nat.succ_mul] at hmul
          omega
        · have haddr : (block + off / BS) * BS + off % BS = block * BS + off := by
            simp only [BS]; omega
          omega
      rw [he] at hcover
      exact hne hcover

/-- Executing any single operation from an invariant configuration yields
an invariant configuration. -/
theorem stepOp_inv (ps ps' : S × (Nat → Nat)) (op : Op)
    (hInv : Inv ps.1 ps.2) (h : stepOp ps op = some ps') : Inv ps'.1 ps'.2 := by
  obtain ⟨s, dev⟩ := ps
  cases op with
  | read block off size o =>
    have h' : (fsRead dev o s block off size).map (fun p => (p.1, dev)) = some ps' := h
    cases hf : fsRead dev o s block off size with
    | none =>
      rw [hf] at h'
      exact absurd h' (by simp)
    | some p =>
      rw [hf] at h'
      have h2 : (p.1, dev) = ps' := Option.some.inj h'
      obtain ⟨s1, r1, out1⟩ := p
      obtain ⟨hInv', -⟩ := fsRead_spec dev o s block off size s1 r1 out1 hInv hf
      rw [← h2]
      exact hInv'
  | prog block off size d =>
    have h' : some (evict s block off size, wrange dev (block * BS + off) size d)
        = some ps' := h
    rw [← Option.some.inj h']
    exact evict_write_inv s dev block off size d hInv
  | erase block d =>
    have h' : some (evict s block 0 BS, wrange dev (block * BS) BS d) = some ps' := h
    rw [← Option.some.inj h']
    have h3 := evict_write_inv s dev block 0 BS d hInv
    rw [Nat.add_zero] at h3
    exact h3

theorem initS_inv (dev0 : Nat → Nat) : Inv initS dev0 :=
  ⟨fun _ => rfl, Nat.zero_le _, fun h => by simp [initS] at h⟩

/-- Every reachable configuration of a terminating run is invariant. -/
theorem run_inv (dev0 : Nat → Nat) (ops : List Op) (s : S) (dev : Nat → Nat)
    (h : run dev0 ops = some (s, dev)) : Inv s dev := by
  suffices hgen : ∀ (l : List Op) (ps : S × (Nat → Nat)) (ps' : S × (Nat → Nat)),
      Inv ps.1 ps.2 → l.foldlM stepOp ps = some ps' → Inv ps'.1 ps'.2 by
    exact hgen ops (initS, dev0) (s, dev) (initS_inv dev0) h
  intro l
  induction l with
  | nil =>
    intro ps ps' hInv h'
    simp only [List.foldlM_nil] at h'
    cases h'
    exact hInv
  | cons op l ih =>
    intro ps ps' hInv h'
    rw [List.foldlM_cons] at h'
    cases hstep : stepOp ps op with
    | none => rw [hstep] at h'; exact absurd h' (by simp)
    | some ps1 =>
      rw [hstep] at h'
      exact ih ps1 ps' (stepOp_inv ps ps1 op hInv hstep) h'

/-- C1: read-after-write coherence.  For every history of cached reads,
wrapped programs and wrapped erases executed from process start (`run`),
any subsequent successful `read(block, off, size)` through the cache
returns exactly the bytes a direct device read (`realRead`) of the same
range returns against the device contents produced by that history. -/
theorem c1_read_coherence (dev0 : Nat → Nat) (ops : List Op) (s : S) (dev : Nat → Nat)
    (o : RO) (block off size : Nat) (s' : S) (out : List Nat)
    (hrun : run dev0 ops = some (s, dev))
    (hread : fsRead dev o s block off size = some (s', 0, out)) :
    out = realRead dev block off size := by
  have hInv := run_inv dev0 ops s dev hrun
  obtain ⟨-, hbytes⟩ := fsRead_spec dev o s block off size s' 0 out hInv hread
  exact hbytes rfl

theorem c1_read_coherence_witness : [7] = realRead devC 0 0 1 :=
  c1_read_coherence devC [] initS devC roC 0 0 1 fsResC [7] rfl (by rfl)

/-- C2 (evaluation at the failing input): after a single `read(0, 0, 1)`
whose underlying device fetch fails, `cache_index[0]` still names block 0
while `block_index[0]` is back to the unassigned sentinel, so
`block_index[cache_index[0]] = E ≠ 0`: the two index arrays are not mutual
inverses after this operation sequence. -/
theorem c2_index_not_inverse :
    ((fsRead devC roE initS 0 0 1).map fun p => (p.1.ci 0, p.1.bi (p.1.ci 0)))
      = some (0, E) ∧ (0 : Nat) ≠ E :=
  ⟨rfl, by decide⟩

/-- C6 (evaluation at the failing input): when the device fetch for
`read(0, 0, 1)` fails with status 1, the status is propagated verbatim and
the forward entry `block_index[0]` is left unassigned, but the claimed
slot is not released: `cache_index[0]` still names block 0 (the source
stored through the sentinel: `cache_index[block_index[block]] = block`
after `block_index[block] = UINT16_MAX`). -/
theorem c6_error_path :
    ((fsRead devC roE initS 0 0 1).map fun p => (p.2.1, p.1.bi 0, p.1.ci 0))
      = some (1, E, 0) ∧ (0 : Nat) ≠ E :=
  ⟨rfl, by decide⟩

/-- C5 (counterexample): when allocation of the cache buffers fails, an
in-range one-byte read does not return the direct device bytes `[7]`; it
reaches the unallocated index arrays (modelled as `none`), so reads do not
degrade to direct uncached reads. -/
theorem c5_no_degradation :
    fsRead devC roF initS 0 0 1 = none ∧ realRead devC 0 0 1 = [7] :=
  ⟨rfl, rfl⟩

/-- C5 (amended): after a failed buffer allocation the cache is not
permanently disabled — `init()` retries allocation on every later read
(`if (!cache)`), and an in-range nonempty read issued while the buffers
are still unallocated dereferences the null index arrays (modelled as
`none`) instead of falling back to a direct device read. -/
theorem c5_amended (s : S) (dev : Nat → Nat) (o : RO) (block off size : Nat)
    (halloc : s.alloc = false) (hfail : o.allocOk = false)
    (hin : block + off / BS < NB) (hsz : size ≠ 0) :
    fsRead dev o s block off size = none ∧
      ∀ o2 : RO, o2.allocOk = true → (initStep o2 s).alloc = true := by
  constructor
  · unfold fsRead
    have hinit : initStep o s = s := by
      unfold initStep
      rw [if_neg (by simp [halloc]), if_neg (by simp [hfail])]
    rw [hinit, readLoop, if_neg hsz, if_neg (by omega : ¬ NB ≤ block + off / BS),
      if_pos halloc]
  · intro o2 h2
    unfold initStep
    rw [if_neg (by simp [halloc]), if_pos h2]

theorem c5_amended_witness :
    fsRead devC roF initS 2 0 3 = none ∧
      ∀ o2 : RO, o2.allocOk = true → (initStep o2 initS).alloc = true :=
  c5_amended initS devC roF 2 0 3 rfl rfl (by decide) (by decide)

/-- C10: while no block has ever been inserted (`used_cache_size = 0`),
`evict` returns immediately with the state — in particular both (possibly
still unallocated) index arrays — untouched, for every cache state; the
`prog`/`erase` wrappers call `evict` first, so block writes issued before
the first cached read never touch the cache structures. -/
theorem c10_evict_noop (s : S) (block off size : Nat) (h : s.used = 0) :
    evict s block off size = s := by
  rw [evict, if_pos h]

theorem c10_evict_noop_witness : evict initS 3 17 5000 = initS :=
  c10_evict_noop initS 3 17 5000 rfl

end FsCache

namespace Cfg

theorem expectInt_encInt (v : Int) (ts : List Tok) :
    expectInt (encInt v :: ts) = some (v, ts) := by
  by_cases h : 0 ≤ v
  · rw [encInt, if_pos h]
    simp [expectInt, Int.toNat_of_nonneg h]
  · rw [encInt, if_neg h]
    simp only [expectInt]
    have h2 : -1 - (((-1 - v).toNat : Nat) : Int) = v := by
      rw [Int.toNat_of_nonneg (by omega)]
      omega
    rw [h2]

theorem skip_encInt (k : Nat) (v : Int) (ts : List Tok) :
    skipToks (k + 1) (encInt v :: ts) = skipToks k ts := by
  by_cases h : 0 ≤ v <;> simp [encInt, h, skipToks]

theorem skip_writer (g : ConfigData) : skipItem (write_config_writer g) = some [] := by
  show skipToks 1 (Tok.map 7 false :: fieldToks g) = some []
  simp [fieldToks, skipToks, skip_encInt]

/-- Decoding the seven emitted field pairs applies each setter with its
written value, reproducing exactly the canonical record `g` whatever the
starting field values were; the loop then continues with `m` entries. -/
theorem readPairs_fields (ip : String → Bool) (g : ConfigData) (hg : canonical ip g) :
    ∀ (m : Nat) (c : ConfigData) (rest : List Tok),
      readPairs ip (m + 7) c (fieldToks g ++ rest) = readPairs ip m g rest := by
  obtain ⟨ga, gh, gs, gw, gho, gl, gm⟩ := g
  obtain ⟨h1, h2, h3, h4, h5, h6, h7, h8⟩ := hg
  simp only at h1 h2 h3 h4 h5 h6 h7 h8
  intro m c rest
  have hsh : ∀ c' : ConfigData, set_syslog_host ip c' gho = { c' with syslog_host := gho } := by
    intro c'
    rcases h6 with h | h
    · rw [set_syslog_host, if_pos h]
    · subst h
      by_cases hip : ip "" = true
      · rw [set_syslog_host, if_pos hip]
      · rw [set_syslog_host, if_neg hip]
  have hlev : toInt8 (toInt32 gl) = gl := by
    unfold toInt8 toInt32
    omega
  have hgm : toUInt32 gm = gm := by
    unfold toUInt32
    omega
  have henc : encInt ((gm : Nat) : Int) = Tok.uint gm := by
    rw [encInt, if_pos (Int.natCast_nonneg gm), Int.toNat_natCast]
  simp +decide [fieldToks, readPairs, readText, readLong, readULong, expectText,
    expectUnsigned, expectInt_encInt, henc, hsh, hlev, hgm, h1, h2, h3, h4, h5]

/-- A full snapshot file written by `write_config` always loads, and it
overwrites every field with the snapshot's values. -/
theorem load_full (ip : String → Bool) (g : ConfigData) (hg : canonical ip g) :
    ∀ c : ConfigData, load_file ip c (some (write_config_file_content g)) = (true, g) := by
  intro c
  have htag : expectSelfDescribe (write_config_file_content g) = some (write_config_writer g) := by
    simp [write_config_file_content, expectSelfDescribe]
  have hmap : expectMap (write_config_writer g) = some (7, false, fieldToks g) := by
    simp [write_config_writer, expectMap]
  have hrp : readPairs ip 7 c (fieldToks g) = (true, g, []) := by
    rw [← List.append_nil (fieldToks g)]
    rw [show readPairs ip 7 c (fieldToks g ++ []) = readPairs ip (0 + 7) c (fieldToks g ++ [])
      from rfl]
    rw [readPairs_fields ip g hg 0 c []]
    rw [readPairs]
  simp [load_file, htag, skip_writer, read_config_reader, hmap, hrp]

theorem canonical_defaults (ip : String → Bool) : canonical ip defaultsRec := by
  refine ⟨by decide, by decide, by decide, by decide, by decide, Or.inr rfl, by decide, by decide⟩

theorem defaults_eq (ip : String → Bool) (c : ConfigData) :
    read_config_defaults ip c = defaultsRec := by
  unfold read_config_defaults set_syslog_host defaultsRec LEVEL_OFF
  by_cases hip : ip "" = true <;> simp [hip]

/-- C8: round trip of the default configuration.  `read_config_defaults`
produces the record of compile-time defaults, and encoding it as a file
(self-describe tag followed by the full field map) and decoding that
output through the setters reproduces exactly the default value of every
declared field, from any starting state. -/
theorem c8_default_roundtrip (ip : String → Bool) (c0 : ConfigData) :
    read_config_defaults ip c0 = defaultsRec ∧
    load_file ip c0 (some (write_config_file_content defaultsRec)) = (true, defaultsRec) :=
  ⟨defaults_eq ip c0, load_full ip defaultsRec (canonical_defaults ip) c0⟩

/-- C9: forward compatibility.  A config map with the seven declared
fields followed by one extra key matching no declared field name decodes
successfully with every recognised field taking its encoded value,
provided the unknown key's value is one well-formed item; if that value
is malformed, the entire decode fails. -/
theorem c9_unknown_key (ip : String → Bool) (c0 g : ConfigData) (k : String)
    (vt vt' : List Tok) (hg : canonical ip g)
    (hk1 : cTrunc k ≠ "admin_password") (hk2 : cTrunc k ≠ "hostname")
    (hk3 : cTrunc k ≠ "wifi_ssid") (hk4 : cTrunc k ≠ "wifi_password")
    (hk5 : cTrunc k ≠ "syslog_host") (hk6 : cTrunc k ≠ "syslog_level")
    (hk7 : cTrunc k ≠ "syslog_mark_interval")
    (hwf : skipItem vt = some []) (hbad : skipItem vt' = none) :
    read_config_reader ip c0 (Tok.map 8 false :: (fieldToks g ++ (Tok.text k false :: vt)))
      = (true, g, []) ∧
    (read_config_reader ip c0
        (Tok.map 8 false :: (fieldToks g ++ (Tok.text k false :: vt')))).1 = false := by
  constructor
  · simp only [read_config_reader, expectMap]
    rw [show readPairs ip 8 c0 (fieldToks g ++ (Tok.text k false :: vt))
        = readPairs ip (1 + 7) c0 (fieldToks g ++ (Tok.text k false :: vt)) from rfl]
    rw [readPairs_fields ip g hg 1 c0 (Tok.text k false :: vt)]
    simp only [readPairs, readText, expectText, if_neg hk1, if_neg hk2, if_neg hk3,
      if_neg hk4, if_neg hk5, if_neg hk6, if_neg hk7, hwf]
  · simp only [read_config_reader, expectMap]
    rw [show readPairs ip 8 c0 (fieldToks g ++ (Tok.text k false :: vt'))
        = readPairs ip (1 + 7) c0 (fieldToks g ++ (Tok.text k false :: vt')) from rfl]
    rw [readPairs_fields ip g hg 1 c0 (Tok.text k false :: vt')]
    simp only [readPairs, readText, expectText, if_neg hk1, if_neg hk2, if_neg hk3,
      if_neg hk4, if_neg hk5, if_neg hk6, if_neg hk7, hbad]

theorem c9_unknown_key_witness :
    read_config_reader ip0 staticInit
        (Tok.map 8 false :: (fieldToks gC ++ (Tok.text "zzz" false :: [Tok.uint 1])))
      = (true, gC, []) ∧
    (read_config_reader ip0 staticInit
        (Tok.map 8 false :: (fieldToks gC ++ (Tok.text "zzz" false :: [Tok.bad])))).1
      = false :=
  c9_unknown_key ip0 staticInit gC "zzz" [Tok.uint 1] [Tok.bad] (by decide)
    (by decide) (by decide) (by decide) (by decide) (by decide) (by decide) (by decide)
    (by decide) (by decide)

theorem mountStep_files (mountOk : Bool) (s : Sys) :
    (mountStep mountOk s).files = s.files ∧ (mountStep mountOk s).data = s.data := by
  unfold mountStep
  split_ifs <;> exact ⟨rfl, rfl⟩

/-- C3: `commit()` changes the backup file only when the primary write
reported success and the just-written primary content passed the
`read_config(filename, false)` verification (self-describe tag present and
well-formed structure); in every other case — including write success with
a corrupted read-back — the backup file is exactly what it was. -/
theorem c3_commit_backup (s : Sys) (mountOk : Bool) (w1 w2 : WOut)
    (h : (commit mountOk w1 w2 s).files.backup ≠ s.files.backup) :
    (writeFileStep (mountStep mountOk s).data w1 (mountStep mountOk s).files.primary).1
      = true ∧
    verify_file (commit mountOk w1 w2 s).files.primary = true := by
  obtain ⟨hf, -⟩ := mountStep_files mountOk s
  unfold commit at h ⊢
  by_cases hm : (mountStep mountOk s).mounted = true
  · rw [if_pos hm] at h ⊢
    by_cases hw : (writeFileStep (mountStep mountOk s).data w1
        (mountStep mountOk s).files.primary).1 = true
    · rw [if_pos hw] at h ⊢
      by_cases hv : verify_file (writeFileStep (mountStep mountOk s).data w1
          (mountStep mountOk s).files.primary).2 = true
      · rw [if_pos hv] at h ⊢
        exact ⟨hw, by simpa using hv⟩
      · rw [if_neg hv] at h
        exact absurd (by simp [hf]) h
    · rw [if_neg hw] at h
      exact absurd (by simp [hf]) h
  · rw [if_neg hm] at h
    exact absurd (by simp [hf]) h

theorem c3_commit_backup_witness :
    (writeFileStep (mountStep true sC3).data WOut.ok (mountStep true sC3).files.primary).1
      = true ∧
    verify_file (commit true WOut.ok WOut.ok sC3).files.primary = true :=
  c3_commit_backup sC3 true WOut.ok WOut.ok (by decide)

/-- C4: load fallback.  From a mounted, unloaded state whose primary file
fails to load (missing, bad tag, or malformed content) while the backup
holds a full snapshot of the canonical values `g`, the constructor marks
the configuration loaded with exactly the backup's values — not the
compile-time defaults. -/
theorem c4_backup_fallback (s : Sys) (mount mountOk : Bool) (ip : String → Bool)
    (g : ConfigData) (hm : s.mounted = true) (hl : s.loaded = false)
    (hp : (load_file ip s.data s.files.primary).1 = false)
    (hb : s.files.backup = some (write_config_file_content g))
    (hg : canonical ip g) :
    (construct mount mountOk ip s).loaded = true ∧
    (construct mount mountOk ip s).data = g := by
  have hms : (if mount then mountStep mountOk s else s) = s := by
    cases mount
    · rfl
    · show mountStep mountOk s = s
      unfold mountStep
      rw [if_neg (by simp [hm])]
  unfold construct
  rw [hms]
  unfold loadStep
  rw [if_pos ⟨hm, by simp [hl]⟩, if_neg (by simp [hp]), hb,
    load_full ip g hg (load_file ip s.data s.files.primary).2, if_pos rfl]
  unfold defaultsStep
  rw [if_neg (by simp)]
  exact ⟨rfl, rfl⟩

theorem c4_backup_fallback_witness :
    (construct true true ip0 sC4).loaded = true ∧ (construct true true ip0 sC4).data = gC :=
  c4_backup_fallback sC4 true true ip0 gC rfl rfl (by decide) rfl (by decide)

theorem defaultsStep_false (ip : String → Bool) (t : Sys) :
    defaultsStep false ip t = t := by
  unfold defaultsStep
  split_ifs <;> simp_all

/-- C7 (counterexample): from a mounted-but-unloaded process state (such a
state is reachable by calling `commit()` before any loading constructor),
constructing with `mount = false` loads the primary config file: the
process-wide loaded flag flips to true and the field values change — the
construction is not a read-only, no-side-effect query. -/
theorem c7_counterexample :
    sC7.loaded = false ∧ (construct false true ip0 sC7).loaded = true ∧
    (construct false true ip0 sC7).data = gC ∧ sC7.data ≠ gC := by decide

/-- C7 (amended): constructing with `mount = false` never mounts — the
mounted/unavailable flags are unchanged — and when the configuration is
already loaded, or the filesystem is not mounted, the whole state is
untouched and only already-loaded values are returned; but when the
filesystem is already mounted and the configuration not yet loaded, the
construction does read the config files (changing the loaded flag and the
field values). -/
theorem c7_amended (mountOk : Bool) (ip : String → Bool) (s : Sys) :
    (construct false mountOk ip s).mounted = s.mounted ∧
    (construct false mountOk ip s).unavailable = s.unavailable ∧
    (s.loaded = true → construct false mountOk ip s = s) ∧
    (s.mounted = false → construct false mountOk ip s = s) := by
  have hc : construct false mountOk ip s = defaultsStep false ip (loadStep ip s) := by
    unfold construct
    rfl
  rw [hc, defaultsStep_false]
  unfold loadStep
  refine ⟨?_, ?_, fun hl => ?_, fun hm => ?_⟩
  · split_ifs <;> rfl
  · split_ifs <;> rfl
  · rw [if_neg (by simp [hl])]
  · rw [if_neg (by simp [hm])]

end Cfg

end McuApp
